import Mathlib

/-!
Verification development for the SACSE contrastive sentence-embedding model
(`simcse/models.py`).  The tensor code is shallowly embedded: float tensors
become lists of rationals (reals where the loss needs `exp`/`log`/`sqrt`),
integer token tensors become lists of integers, and the external text encoder
and masked-token generator are opaque function parameters, as the spec treats
them.  Fallible tensor operations (failed `view`, out-of-range indexing,
assertion failures, attribute errors) are modelled with `Option`.
-/

/-- A float vector (one embedding row). -/
abbrev Vec : Type := List ℚ

/-- A 2-D float tensor as a list of rows. -/
abbrev Mat : Type := List Vec

/-- Elementwise sum of two vectors (`torch` broadcast `+` on equal shapes). -/
def vadd (x y : Vec) : Vec := List.zipWith (· + ·) x y

/-- Sum of a list of vectors, as `tensor.sum(dim)` over a non-empty axis. -/
def sumVecs : Mat → Vec
  | [] => []
  | [v] => v
  | v :: vs => vadd v (sumVecs vs)

/-- Models `hidden * mask.unsqueeze(-1)` then `.sum(1)` for one example: the
mask-weighted sum of the per-position hidden vectors. -/
def maskedSum (m : List ℚ) (hs : Mat) : Vec :=
  sumVecs (List.zipWith (fun mp hp => hp.map (fun x => mp * x)) m hs)

/-- Mask-weighted mean of per-position hidden vectors for one example:
`(hidden * mask).sum(1) / mask.sum(-1)` (models.py line 71). -/
def maskedMean (m : List ℚ) (hs : Mat) : Vec :=
  (maskedSum m hs).map (fun x => x / m.sum)

/-- The memory-bank buffers registered by `BertForCL.__init__`
(models.py lines 444-446): the `queue` tensor of shape
`(bank_size, hidden_len)` and the scalar write pointer `queue_ptr`. -/
structure BankSt where
  queue : Mat
  ptr : Nat
deriving DecidableEq

/-- Models `dequeue_and_enqueue` (models.py lines 98-113).  Overwrites bank rows
`[ptr, ptr+batch_size)` with `keys`, then advances
`ptr := (ptr + batch_size) % bank_size`.  Returns `none` on the fatal
failures of the source, all of which occur before any mutation: the
`assert bank_size % batch_size == 0` (a zero `batch_size` is likewise fatal,
as `%` by zero raises), and the tensor engine's shape check on the slice
assignment `queue[ptr:ptr+batch_size, :] = keys`, which needs the slice to
hold exactly `batch_size` rows. -/
def dequeue_and_enqueue (bank_size : Nat) (s : BankSt) (keys : Mat) : Option BankSt :=
  let batch_size := keys.length
  if batch_size ≠ 0 ∧ bank_size % batch_size = 0 ∧ s.ptr + batch_size ≤ s.queue.length then
    some { queue := s.queue.take s.ptr ++ keys ++ s.queue.drop (s.ptr + batch_size),
           ptr := (s.ptr + batch_size) % bank_size }
  else none

/-- Run an enqueue call in the Python object-state style: a fatal assertion
raises before any buffer was touched, so a failing call returns the original
state together with `false`. -/
def runEnqueue (bank_size : Nat) (s : BankSt) (keys : Mat) : BankSt × Bool :=
  match dequeue_and_enqueue bank_size s keys with
  | some s' => (s', true)
  | none => (s, false)

/-- A sequence of successive enqueue calls; any fatal call aborts the run. -/
def enqueueAll (bank_size : Nat) (s : BankSt) (batches : List Mat) : Option BankSt :=
  match batches with
  | [] => some s
  | keys :: rest => (dequeue_and_enqueue bank_size s keys).bind
      (fun s' => enqueueAll bank_size s' rest)

lemma dequeue_and_enqueue_pos (bank_size b : Nat) (s : BankSt) (keys : Mat)
    (hk : keys.length = b) (hb : b ≠ 0) (hmod : bank_size % b = 0)
    (hle : s.ptr + b ≤ s.queue.length) :
    dequeue_and_enqueue bank_size s keys =
      some { queue := s.queue.take s.ptr ++ keys ++ s.queue.drop (s.ptr + b),
             ptr := (s.ptr + b) % bank_size } := by
  subst hk
  unfold dequeue_and_enqueue
  rw [if_pos ⟨hb, hmod, hle⟩]

lemma writeRows_length (q keys : Mat) (p : Nat) (hle : p + keys.length ≤ q.length) :
    (q.take p ++ keys ++ q.drop (p + keys.length)).length = q.length := by
  simp only [List.length_append, List.length_take, List.length_drop]
  omega

/-- After enqueues at an aligned pointer that never reach past the end of the
bank, the written rows are exactly the concatenated key batches and the
pointer has advanced by the total number of rows written (mod `bank_size`). -/
lemma enqueueAll_aligned (bank_size b : Nat) (hb : 0 < b) (hdvd : b ∣ bank_size) :
    ∀ (batches : List Mat) (q : Mat) (p : Nat),
      (∀ K ∈ batches, K.length = b) → q.length = bank_size → p < bank_size →
      p + b * batches.length ≤ bank_size →
      enqueueAll bank_size ⟨q, p⟩ batches =
        some ⟨q.take p ++ batches.flatten ++ q.drop (p + b * batches.length),
              (p + b * batches.length) % bank_size⟩ := by
  intro batches
  induction batches with
  | nil =>
      intro q p _ hq hplt _
      simp [enqueueAll, Nat.mod_eq_of_lt hplt]
  | cons K rest ih =>
      intro q p hall hq hplt hfit
      have hK : K.length = b := hall K (by simp)
      have hmod : bank_size % b = 0 := Nat.mod_eq_zero_of_dvd hdvd
      have hmul : b * (K :: rest).length = b * rest.length + b := by
        simp [List.length_cons, Nat.mul_succ]
      have hfit' : p + (b * rest.length + b) ≤ bank_size := by
        rw [hmul] at hfit; omega
      have hble : p + b ≤ q.length := by rw [hq]; omega
      have hstep := dequeue_and_enqueue_pos bank_size b ⟨q, p⟩ K hK
        (by omega) hmod (by simpa using hble)
      have hq' : (q.take p ++ K ++ q.drop (p + b)).length = bank_size := by
        have h1 := writeRows_length q K p (by rw [hK]; exact hble)
        rw [hK] at h1
        rw [h1]
        exact hq
      have harith : p + b + b * rest.length = p + b * (K :: rest).length := by
        rw [hmul]; omega
      rcases Nat.lt_or_ge (p + b) bank_size with h1 | h2
      · -- the write stays strictly inside the bank: pointer advances to p + b
        have hptr : (p + b) % bank_size = p + b := Nat.mod_eq_of_lt h1
        have hih := ih (q.take p ++ K ++ q.drop (p + b)) (p + b)
          (fun K' hK' => hall K' (by simp [hK'])) hq' h1 (by omega)
        have hlen : (q.take p ++ K).length = p + b := by
          simp only [List.length_append, List.length_take]
          omega
        have htake : (q.take p ++ K ++ q.drop (p + b)).take (p + b) = q.take p ++ K :=
          List.take_left' hlen
        have hdrop : (q.take p ++ K ++ q.drop (p + b)).drop (p + b + b * rest.length) =
            q.drop (p + b * (K :: rest).length) := by
          rw [show p + b + b * rest.length = (q.take p ++ K).length + b * rest.length by omega,
            ← List.drop_drop, List.drop_left, List.drop_drop, ← harith]
        rw [show enqueueAll bank_size ⟨q, p⟩ (K :: rest) =
              (dequeue_and_enqueue bank_size ⟨q, p⟩ K).bind
                (fun s' => enqueueAll bank_size s' rest) from rfl,
          hstep]
        simp only [Option.some_bind, hptr]
        rw [hih, htake, hdrop, harith]
        simp [List.append_assoc]
      · -- the write ends exactly at the bank boundary: pointer wraps to 0
        have heq : p + b = bank_size := by omega
        have hrest : rest = [] := by
          have h0 : b * rest.length = 0 := by omega
          rcases Nat.mul_eq_zero.mp h0 with h | h
          · omega
          · exact List.length_eq_zero.mp h
        subst hrest
        have hptr : (p + b) % bank_size = 0 := by rw [heq, Nat.mod_self]
        have hdropnil : q.drop (p + b) = [] := List.drop_of_length_le (by omega)
        rw [show enqueueAll bank_size ⟨q, p⟩ [K] =
              (dequeue_and_enqueue bank_size ⟨q, p⟩ K).bind
                (fun s' => enqueueAll bank_size s' []) from rfl,
          hstep]
        simp only [Option.some_bind, enqueueAll]
        rw [← harith]
        simp [hdropnil, hptr]

/-- C2 helper: the total number of rows in the concatenated batches. -/
lemma flatten_length_of_uniform (batches : List Mat) (b : Nat)
    (hall : ∀ K ∈ batches, K.length = b) :
    batches.flatten.length = b * batches.length := by
  induction batches with
  | nil => simp
  | cons K rest ih =>
      have hK : K.length = b := hall K (by simp)
      simp only [List.flatten_cons, List.length_append, List.length_cons, hK,
        ih (fun K' hK' => hall K' (by simp [hK']))]
      ring

/-- C2: from `ptr = 0`, one divisible enqueue writes rows `[0,b)` and advances
the pointer to `b % bank_size`; `bank_size / b` successive divisible enqueues
return the pointer to `0` and leave the bank equal to the concatenation of the
key batches, so every original row was overwritten exactly once. -/
theorem bank_enqueue_roundtrip (bank_size b : Nat) (q0 keys : Mat) (batches : List Mat)
    (hb : 0 < b) (hpos : 0 < bank_size) (hdvd : b ∣ bank_size)
    (hq : q0.length = bank_size) (hkeys : keys.length = b)
    (hbs : ∀ K ∈ batches, K.length = b) (hlen : batches.length = bank_size / b) :
    (∃ s', dequeue_and_enqueue bank_size ⟨q0, 0⟩ keys = some s' ∧
           s'.queue.take b = keys ∧ s'.ptr = b % bank_size)
    ∧ enqueueAll bank_size ⟨q0, 0⟩ batches = some ⟨batches.flatten, 0⟩
    ∧ batches.flatten.length = bank_size := by
  have hble : b ≤ bank_size := Nat.le_of_dvd hpos hdvd
  have hmod : bank_size % b = 0 := Nat.mod_eq_zero_of_dvd hdvd
  have htotal : b * batches.length = bank_size := by
    rw [hlen, Nat.mul_div_cancel' hdvd]
  refine ⟨⟨_, dequeue_and_enqueue_pos bank_size b ⟨q0, 0⟩ keys hkeys (by omega) hmod
      (by simp [hq]; omega), ?_, by simp⟩, ?_, ?_⟩
  · simp only [List.take_zero, List.nil_append]
    exact List.take_left' hkeys
  · have h := enqueueAll_aligned bank_size b hb hdvd batches q0 0 hbs hq hpos
      (by rw [htotal]; omega)
    rw [h]
    simp only [List.take_zero, List.nil_append, Nat.zero_add, htotal, Nat.mod_self]
    rw [List.drop_of_length_le (le_of_eq hq), List.append_nil]
  · rw [flatten_length_of_uniform batches b hbs, htotal]

/-- C2 witness: `bank_size = 4`, two batches of two rows each. -/
theorem bank_enqueue_roundtrip_witness :
    (∃ s', dequeue_and_enqueue 4 ⟨[[5], [5], [5], [5]], 0⟩ [[1], [2]] = some s' ∧
           s'.queue.take 2 = [[1], [2]] ∧ s'.ptr = 2 % 4)
    ∧ enqueueAll 4 ⟨[[5], [5], [5], [5]], 0⟩ [[[1], [2]], [[3], [4]]] =
        some ⟨[[1], [2], [3], [4]], 0⟩
    ∧ ([[[1], [2]], [[3], [4]]] : List Mat).flatten.length = 4 := by
  have h := bank_enqueue_roundtrip 4 2 [[5], [5], [5], [5]] [[1], [2]]
    [[[1], [2]], [[3], [4]]] (by decide) (by decide) (by decide) (by decide) (by decide)
    (by decide) (by decide)
  simpa using h

/-- C5: an enqueue whose batch size does not divide `bank_size` fails the
fatal assertion and leaves the bank rows and the write pointer unchanged. -/
theorem enqueue_indivisible_fails (bank_size : Nat) (s : BankSt) (keys : Mat)
    (h : ¬ keys.length ∣ bank_size) :
    dequeue_and_enqueue bank_size s keys = none ∧
    runEnqueue bank_size s keys = (s, false) := by
  have hnone : dequeue_and_enqueue bank_size s keys = none := by
    unfold dequeue_and_enqueue
    rw [if_neg]
    rintro ⟨hb, hmod, -⟩
    exact h (Nat.dvd_of_mod_eq_zero hmod)
  exact ⟨hnone, by simp [runEnqueue, hnone]⟩

/-- C5 witness: a batch of 3 rows against a bank of 4 rows. -/
theorem enqueue_indivisible_fails_witness :
    dequeue_and_enqueue 4 ⟨[[0], [0], [0], [0]], 0⟩ [[1], [1], [1]] = none ∧
    runEnqueue 4 ⟨[[0], [0], [0], [0]], 0⟩ [[1], [1], [1]] =
      (⟨[[0], [0], [0], [0]], 0⟩, false) :=
  enqueue_indivisible_fails 4 ⟨[[0], [0], [0], [0]], 0⟩ [[1], [1], [1]] (by decide)

/-- The configuration options consumed by the model (the `model_args` the
constructors stash away); only the fields the verified claims touch. -/
structure ModelArgs where
  bank_size : Nat
  hidden_len : Nat
  do_mlm : Bool
  do_stronger : Bool
deriving DecidableEq

/-- The mutable state a `*ForCL` model carries that the contrastive forward
pass reads or writes: the configuration plus the memory-bank buffers.
`bank = none` models a model class whose `__init__` never registered the
`queue`/`queue_ptr` buffers, so any access to them raises. -/
structure CLModel where
  model_args : ModelArgs
  bank : Option BankSt
deriving DecidableEq

/-- Models `BertForCL.__init__` (models.py lines 439-451): registers the `queue`
buffer of shape `(bank_size, hidden_len)` and `queue_ptr = 0`.  The buffer's
initial content is externally sampled random rows, L2-normalized; it enters
the model as the opaque parameter `initQueue`. -/
def BertForCL_init (args : ModelArgs) (initQueue : Mat) : CLModel :=
  { model_args := args, bank := some ⟨initQueue, 0⟩ }

/-- Models `RobertaForCL.__init__` (models.py lines 502-510): no `register_buffer`
call for `queue` or `queue_ptr` — the memory bank is never constructed. -/
def RobertaForCL_init (args : ModelArgs) : CLModel :=
  { model_args := args, bank := none }

/-- Models `dequeue_and_enqueue` viewed at the model level: reading `cls.queue_ptr`
or `cls.queue` on a model without the bank buffers raises (AttributeError). -/
def model_dequeue_and_enqueue (m : CLModel) (keys : Mat) : Option CLModel :=
  match m.bank with
  | none => none
  | some b => (dequeue_and_enqueue m.model_args.bank_size b keys).map
      (fun b' => { m with bank := some b' })

/-- The model-level enqueue in Python object-state style: a fatal call leaves
the model exactly as it was. -/
def model_runEnqueue (m : CLModel) (keys : Mat) : CLModel × Bool :=
  match model_dequeue_and_enqueue m keys with
  | some m' => (m', true)
  | none => (m, false)

/-- Inversion principle for a successful enqueue call: the fatal checks
passed and the result is the slice-assigned bank with the advanced pointer. -/
lemma dequeue_and_enqueue_inv (bank_size : Nat) (s : BankSt) (keys : Mat) (s' : BankSt)
    (h : dequeue_and_enqueue bank_size s keys = some s') :
    keys.length ≠ 0 ∧ bank_size % keys.length = 0 ∧
    s.ptr + keys.length ≤ s.queue.length ∧
    s' = ⟨s.queue.take s.ptr ++ keys ++ s.queue.drop (s.ptr + keys.length),
          (s.ptr + keys.length) % bank_size⟩ := by
  simp only [dequeue_and_enqueue] at h
  by_cases hc : keys.length ≠ 0 ∧ bank_size % keys.length = 0 ∧
      s.ptr + keys.length ≤ s.queue.length
  · rw [if_pos hc] at h
    cases h
    exact ⟨hc.1, hc.2.1, hc.2.2, rfl⟩
  · rw [if_neg hc] at h
    cases h

/-- C10: an enqueue call under the divisibility precondition only writes the
bank rows of the window `[ptr, ptr + batch_size)` and the write pointer:
every row outside the window is unchanged, the bank keeps its row count, and
no other model state (in particular the configuration) is modified. -/
theorem enqueue_frame (bank_size : Nat) (s : BankSt) (keys : Mat)
    (h : keys.length ∣ bank_size) :
    ((runEnqueue bank_size s keys).1.queue.length = s.queue.length)
    ∧ (∀ i, i < s.ptr ∨ s.ptr + keys.length ≤ i →
        (runEnqueue bank_size s keys).1.queue.get? i = s.queue.get? i)
    ∧ (∀ m : CLModel, (model_runEnqueue m keys).1.model_args = m.model_args)
    ∧ (∀ args bank, (model_runEnqueue ⟨args, bank⟩ keys).1.bank.isSome = bank.isSome) := by
  refine ⟨?_, ?_, ?_, ?_⟩
  · unfold runEnqueue
    split
    · next s' heq =>
        obtain ⟨-, -, hle, rfl⟩ := dequeue_and_enqueue_inv bank_size s keys s' heq
        exact writeRows_length s.queue keys s.ptr hle
    · rfl
  · intro i hi
    unfold runEnqueue
    split
    · next s' heq =>
        obtain ⟨-, -, hle, rfl⟩ := dequeue_and_enqueue_inv bank_size s keys s' heq
        rcases hi with hlt | hge
        · have htl : i < (s.queue.take s.ptr).length := by
            simp only [List.length_take]
            omega
          rw [List.append_assoc, List.get?_append htl, List.get?_take (by omega)]
        · have hlen : (s.queue.take s.ptr ++ keys).length = s.ptr + keys.length := by
            simp only [List.length_append, List.length_take]
            omega
          rw [List.get?_append_right (by rw [hlen]; omega), hlen]
          have hdq : (s.queue.drop (s.ptr + keys.length)).get? (i - (s.ptr + keys.length)) =
              s.queue.get? (s.ptr + keys.length + (i - (s.ptr + keys.length))) := by
            simp [List.get?_drop]
          rw [hdq]
          congr 1
          omega
    · rfl
  · intro m
    unfold model_runEnqueue model_dequeue_and_enqueue
    rcases m with ⟨args, bank⟩
    cases bank with
    | none => rfl
    | some b =>
        simp only
        cases dequeue_and_enqueue args.bank_size b keys with
        | none => rfl
        | some b' => rfl
  · intro args bank
    unfold model_runEnqueue model_dequeue_and_enqueue
    cases bank with
    | none => rfl
    | some b =>
        simp only
        cases dequeue_and_enqueue args.bank_size b keys with
        | none => rfl
        | some b' => rfl

/-- C10 witness: a window write at `ptr = 1` of width 2 inside a 4-row bank. -/
theorem enqueue_frame_witness :
    ((runEnqueue 4 ⟨[[9], [9], [9], [9]], 1⟩ [[1], [2]]).1.queue.length =
      ([[9], [9], [9], [9]] : Mat).length)
    ∧ ((runEnqueue 4 ⟨[[9], [9], [9], [9]], 1⟩ [[1], [2]]).1.queue.get? 0 =
        ([[9], [9], [9], [9]] : Mat).get? 0)
    ∧ ((runEnqueue 4 ⟨[[9], [9], [9], [9]], 1⟩ [[1], [2]]).1.queue.get? 3 =
        ([[9], [9], [9], [9]] : Mat).get? 3)
    ∧ (model_runEnqueue ⟨⟨4, 1, false, false⟩, some ⟨[[9], [9], [9], [9]], 1⟩⟩
        [[1], [2]]).1.model_args = ⟨4, 1, false, false⟩ := by
  have h := enqueue_frame 4 ⟨[[9], [9], [9], [9]], 1⟩ [[1], [2]] (by decide)
  exact ⟨h.1, h.2.1 0 (by decide), h.2.1 3 (by decide),
    h.2.2.1 ⟨⟨4, 1, false, false⟩, some ⟨[[9], [9], [9], [9]], 1⟩⟩⟩


/-- The fixed set of pooling modes accepted by `Pooler.__init__`
(models.py line 61); any other string is a fatal configuration error. -/
inductive PoolerType where
  | cls
  | cls_before_pooler
  | avg
  | avg_top2
  | avg_first_last
deriving DecidableEq

/-- The encoder output bundle consumed by the pooler (models.py lines 63-66):
last hidden state `(batch, seq, hidden)`, optional pooler output, and the
optional per-layer hidden-state stack (index 0 is the embedding layer, last
index the final encoder layer). -/
structure EncOut where
  last_hidden_state : List Mat
  pooler_output : Option Mat
  hidden_states : Option (List (List Mat))
deriving DecidableEq

/-- Per-example average of two layers: `(first_hidden + last_hidden) / 2.0`
componentwise over a `(batch, seq, hidden)` pair of layers. -/
def avgLayers (A B : List Mat) : List Mat :=
  List.zipWith (fun aEx bEx =>
    List.zipWith (fun ap bp => List.zipWith (fun a b => (a + b) / 2) ap bp) aEx bEx) A B

/-- Models `Pooler.forward` (models.py lines 63-83).  `none` models the fatal error
of reading the absent `hidden_states` stack for the multi-layer modes. -/
def Pooler.forward (pooler_type : PoolerType) (attention_mask : List (List ℚ))
    (outputs : EncOut) : Option Mat :=
  let last_hidden := outputs.last_hidden_state
  match pooler_type with
  | .cls | .cls_before_pooler => some (last_hidden.map (fun ex => ex.getD 0 []))
  | .avg => some (List.zipWith (fun ex m => maskedMean m ex) last_hidden attention_mask)
  | .avg_first_last =>
      match outputs.hidden_states with
      | none => none
      | some hs =>
          let first_hidden := hs.getD 1 []
          let last_hidden := hs.getD (hs.length - 1) []
          some (List.zipWith (fun ex m => maskedMean m ex)
            (avgLayers first_hidden last_hidden) attention_mask)
  | .avg_top2 =>
      match outputs.hidden_states with
      | none => none
      | some hs =>
          let second_last_hidden := hs.getD (hs.length - 2) []
          let last_hidden := hs.getD (hs.length - 1) []
          some (List.zipWith (fun ex m => maskedMean m ex)
            (avgLayers last_hidden second_last_hidden) attention_mask)

/-- Follows the spec's words for `avg_first_last` pooling with an explicit
choice `i` of the "first" layer index and `j` of the "last": mask-weighted
mean of `(stack[i] + stack[j]) / 2`.  The claim reads `i = 0` (the embedding
layer); the source uses stack index 1. -/
def spec_avg_layers_pool (i j : Nat) (attention_mask : List (List ℚ))
    (hs : List (List Mat)) : Mat :=
  List.zipWith (fun ex m => maskedMean m ex)
    (avgLayers (hs.getD i []) (hs.getD j [])) attention_mask

lemma sumVecs_cons (v : Vec) (vs : Mat) (h : vs ≠ []) :
    sumVecs (v :: vs) = vadd v (sumVecs vs) := by
  cases vs with
  | nil => exact absurd rfl h
  | cons w ws => rfl

lemma map_one_mul (v : Vec) : v.map (fun x => (1 : ℚ) * x) = v := by
  simp

lemma map_zero_mul (v : Vec) : v.map (fun x => (0 : ℚ) * x) = List.replicate v.length 0 := by
  induction v with
  | nil => rfl
  | cons a t ih => simp [List.replicate_succ, ih]

lemma vadd_replicate_zero_left (v : Vec) (d : Nat) (h : v.length = d) :
    vadd (List.replicate d 0) v = v := by
  induction v generalizing d with
  | nil => cases h; rfl
  | cons a t ih =>
      cases h
      simp only [List.length_cons, List.replicate_succ, vadd, List.zipWith_cons_cons, zero_add]
      exact congrArg (a :: ·) (ih t.length rfl)

lemma vadd_replicate_zero_right (v : Vec) (d : Nat) (h : v.length = d) :
    vadd v (List.replicate d 0) = v := by
  induction v generalizing d with
  | nil => cases h; rfl
  | cons a t ih =>
      cases h
      simp only [List.length_cons, List.replicate_succ, vadd, List.zipWith_cons_cons, add_zero]
      exact congrArg (a :: ·) (ih t.length rfl)

lemma sumVecs_weighted_zeros (t : Mat) (d : Nat) (hd : ∀ v ∈ t, v.length = d)
    (hne : t ≠ []) :
    sumVecs (List.zipWith (fun mp hp => hp.map (fun x => mp * x))
      (List.replicate t.length (0 : ℚ)) t) = List.replicate d 0 := by
  induction t with
  | nil => exact absurd rfl hne
  | cons h rest ih =>
      have hh : h.length = d := hd h (by simp)
      simp only [List.length_cons, List.replicate_succ, List.zipWith_cons_cons]
      rw [map_zero_mul, hh]
      cases rest with
      | nil => rfl
      | cons w ws =>
          rw [sumVecs_cons _ _ (by simp)]
          rw [ih (fun v hv => hd v (by simp [hv])) (by simp)]
          exact vadd_replicate_zero_left _ _ (by simp)

/-- An attention mask that marks exactly position `k` of `n` as a real token. -/
def oneHot : Nat → Nat → List ℚ
  | _, 0 => []
  | 0, Nat.succ n => 1 :: List.replicate n 0
  | Nat.succ k, Nat.succ n => 0 :: oneHot k n

lemma oneHot_length (k n : Nat) : (oneHot k n).length = n := by
  induction n generalizing k with
  | zero => cases k <;> rfl
  | succ n ih =>
      cases k with
      | zero => simp [oneHot]
      | succ k => simp [oneHot, ih k]

lemma oneHot_sum (k n : Nat) (h : k < n) : (oneHot k n).sum = 1 := by
  induction n generalizing k with
  | zero => omega
  | succ n ih =>
      cases k with
      | zero => simp [oneHot]
      | succ k => simp [oneHot, ih k (by omega)]

lemma sumVecs_length_of_uniform (l : Mat) (d : Nat) (hne : l ≠ [])
    (hd : ∀ v ∈ l, v.length = d) : (sumVecs l).length = d := by
  induction l with
  | nil => exact absurd rfl hne
  | cons v vs ih =>
      cases vs with
      | nil => exact hd v (by simp)
      | cons w ws =>
          rw [sumVecs_cons _ _ (by simp), vadd]
          rw [List.length_zipWith, hd v (by simp), ih (by simp)
            (fun u hu => hd u (by simp [hu]))]
          omega

lemma maskedSum_oneHot (hs : Mat) (k d : Nat) (hk : k < hs.length)
    (hd : ∀ v ∈ hs, v.length = d) :
    maskedSum (oneHot k hs.length) hs = hs.getD k [] := by
  induction hs generalizing k with
  | nil => simp at hk
  | cons h t ih =>
      have hh : h.length = d := hd h (by simp)
      cases k with
      | zero =>
          show maskedSum (1 :: List.replicate t.length 0) (h :: t) = h
          unfold maskedSum
          simp only [List.zipWith_cons_cons, map_one_mul]
          cases t with
          | nil => rfl
          | cons w ws =>
              rw [sumVecs_cons _ _ (by simp)]
              rw [show List.zipWith (fun mp hp => hp.map (fun x => mp * x))
                    (List.replicate (w :: ws).length (0 : ℚ)) (w :: ws) =
                  List.zipWith (fun mp hp => hp.map (fun x => mp * x))
                    (List.replicate (w :: ws).length (0 : ℚ)) (w :: ws) from rfl]
              rw [sumVecs_weighted_zeros (w :: ws) d
                (fun v hv => hd v (by simp at hv; simp [hv])) (by simp)]
              exact vadd_replicate_zero_right _ _ hh
      | succ k =>
          show maskedSum (0 :: oneHot k t.length) (h :: t) = t.getD k []
          unfold maskedSum
          simp only [List.zipWith_cons_cons, map_zero_mul, hh]
          have hkt : k < t.length := by simpa using hk
          have hne : List.zipWith (fun mp hp => hp.map (fun x => mp * x))
              (oneHot k t.length) t ≠ [] := by
            have : (List.zipWith (fun mp hp => hp.map (fun x => mp * x))
                (oneHot k t.length) t).length = t.length := by
              rw [List.length_zipWith, oneHot_length]
              omega
            intro hcon
            rw [hcon] at this
            simp at this
            omega
          rw [sumVecs_cons _ _ hne]
          have hrec : sumVecs (List.zipWith (fun mp hp => hp.map (fun x => mp * x))
              (oneHot k t.length) t) = t.getD k [] :=
            ih k hkt (fun v hv => hd v (by simp [hv]))
          rw [hrec]
          refine vadd_replicate_zero_left _ _ ?_
          have hmem : t.getD k [] ∈ t := by
            rw [List.getD_eq_getElem t [] hkt]
            exact List.getElem_mem hkt
          exact hd _ (List.mem_cons_of_mem h hmem)

lemma weighted_ones (hs : Mat) :
    List.zipWith (fun mp hp => hp.map (fun x => mp * x))
      (List.replicate hs.length (1 : ℚ)) hs = hs := by
  induction hs with
  | nil => rfl
  | cons h t ih =>
      simp only [List.length_cons, List.replicate_succ, List.zipWith_cons_cons,
        map_one_mul, ih]

/-- C6 counterexample: a 3-entry hidden-state stack whose embedding layer
(index 0) differs from stack index 1.  The pooler averages stack entries 1
and 2 (values 3 and 5, pooling to 4), not entries 0 and 2 as the claim's
"first layer is index 0" reading would give (values 1 and 5, pooling to 3). -/
theorem avg_first_last_layer_counterexample :
    Pooler.forward .avg_first_last [[1]]
        ⟨[[[0]]], none, some [[[[1]]], [[[3]]], [[[5]]]]⟩ = some [[4]]
    ∧ spec_avg_layers_pool 0 (([[[[1]]], [[[3]]], [[[5]]]] : List (List Mat)).length - 1)
        [[1]] [[[[1]]], [[[3]]], [[[5]]]] = [[3]]
    ∧ ¬ (Pooler.forward .avg_first_last [[1]]
          ⟨[[[0]]], none, some [[[[1]]], [[[3]]], [[[5]]]]⟩ =
        some (spec_avg_layers_pool 0
          (([[[[1]]], [[[3]]], [[[5]]]] : List (List Mat)).length - 1)
          [[1]] [[[[1]]], [[[3]]], [[[5]]]])) := by
  refine ⟨?_, ?_, ?_⟩ <;>
    norm_num [Pooler.forward, spec_avg_layers_pool, avgLayers, maskedMean, maskedSum,
      sumVecs, vadd, List.getD]

/-- C6 amended: for `avg_first_last` the pooled output is the mask-weighted
mean of `(stack[1] + stack[last]) / 2` — the "first" layer the source reads
is index 1 of the hidden-state stack (the first encoder layer), not index 0
(the embedding layer). -/
theorem avg_first_last_spec (attention_mask : List (List ℚ)) (outputs : EncOut)
    (hs : List (List Mat)) (h : outputs.hidden_states = some hs) :
    Pooler.forward .avg_first_last attention_mask outputs =
      some (spec_avg_layers_pool 1 (hs.length - 1) attention_mask hs) := by
  rcases outputs with ⟨lh, po, ohs⟩
  cases h
  rfl

/-- C6 amended witness: the concrete stack with entries 1, 3, 5. -/
theorem avg_first_last_spec_witness :
    Pooler.forward .avg_first_last [[1]]
        ⟨[[[0]]], none, some [[[[7]]], [[[3]]], [[[5]]]]⟩ =
      some (spec_avg_layers_pool 1 (([[[[7]]], [[[3]]], [[[5]]]] : List (List Mat)).length - 1)
        [[1]] [[[[7]]], [[[3]]], [[[5]]]]) :=
  avg_first_last_spec [[1]] ⟨[[[0]]], none, some [[[[7]]], [[[3]]], [[[5]]]]⟩
    [[[[7]]], [[[3]]], [[[5]]]] rfl

/-- C7: `avg` pooling is the per-example mask-weighted mean
`sum(hidden * mask) / sum(mask)`; with an all-ones mask it is the unweighted
mean over sequence positions, and with a single 1 at position `k` it is
exactly the hidden vector at position `k`. -/
theorem avg_pooling_spec :
    (∀ (attention_mask : List (List ℚ)) (outputs : EncOut),
       Pooler.forward .avg attention_mask outputs =
         some (List.zipWith (fun ex m => (maskedSum m ex).map (fun x => x / m.sum))
           outputs.last_hidden_state attention_mask))
    ∧ (∀ hs : Mat, maskedMean (List.replicate hs.length 1) hs =
         (sumVecs hs).map (fun x => x / (hs.length : ℚ)))
    ∧ (∀ (hs : Mat) (k d : Nat), k < hs.length → (∀ v ∈ hs, v.length = d) →
         maskedMean (oneHot k hs.length) hs = hs.getD k []) := by
  refine ⟨fun attention_mask outputs => rfl, fun hs => ?_, fun hs k d hk hd => ?_⟩
  · unfold maskedMean maskedSum
    rw [weighted_ones]
    congr 1
    rw [List.sum_replicate]
    simp
  · unfold maskedMean
    rw [maskedSum_oneHot hs k d hk hd, oneHot_sum k hs.length hk]
    simp

/-- C7 witness: a 3-position sequence with 2-dimensional hidden vectors. -/
theorem avg_pooling_spec_witness :
    (Pooler.forward .avg [[1, 1, 1]] ⟨[[[1, 2], [3, 4], [5, 6]]], none, none⟩ =
       some (List.zipWith (fun ex m => (maskedSum m ex).map (fun x => x / m.sum))
         [[[1, 2], [3, 4], [5, 6]]] [[1, 1, 1]]))
    ∧ (maskedMean (List.replicate ([[1, 2], [3, 4], [5, 6]] : Mat).length 1)
         [[1, 2], [3, 4], [5, 6]] =
       (sumVecs [[1, 2], [3, 4], [5, 6]]).map
         (fun x => x / (([[1, 2], [3, 4], [5, 6]] : Mat).length : ℚ)))
    ∧ (maskedMean (oneHot 1 ([[1, 2], [3, 4], [5, 6]] : Mat).length)
         [[1, 2], [3, 4], [5, 6]] = ([[1, 2], [3, 4], [5, 6]] : Mat).getD 1 []) := by
  refine ⟨avg_pooling_spec.1 [[1, 1, 1]] ⟨[[[1, 2], [3, 4], [5, 6]]], none, none⟩,
    avg_pooling_spec.2.1 [[1, 2], [3, 4], [5, 6]],
    avg_pooling_spec.2.2 [[1, 2], [3, 4], [5, 6]] 1 2 (by decide) (by decide)⟩

/-- Whether the encoder is asked for the multi-layer hidden-state stack:
`output_hidden_states=True` exactly for the two multi-layer pooling modes
(models.py lines 215 and 418; `cls.pooler_type` and
`cls.model_args.pooler_type` are the same value, set in `cl_init`). -/
def needs_hidden_states (pooler_type : PoolerType) : Bool :=
  match pooler_type with
  | .avg_top2 | .avg_first_last => true
  | _ => false

/-- The encode-then-pool step of `sentemb_forward` (models.py lines 410-422):
call the encoder on the single view, then pool with the attention mask. -/
def sentemb_pooling (encoder : List (List ℤ) → List (List ℚ) → Bool → EncOut)
    (pooler_type : PoolerType) (input_ids : List (List ℤ))
    (attention_mask : List (List ℚ)) : Option Mat :=
  let outputs := encoder input_ids attention_mask (needs_hidden_states pooler_type)
  Pooler.forward pooler_type attention_mask outputs

/-- The encode-then-pool step of `cl_forward` on a flattened view
(models.py lines 207-219): the same encoder call and the same pooler call. -/
def cl_forward_pooling (encoder : List (List ℤ) → List (List ℚ) → Bool → EncOut)
    (pooler_type : PoolerType) (input_ids : List (List ℤ))
    (attention_mask : List (List ℚ)) : Option Mat :=
  let outputs := encoder input_ids attention_mask (needs_hidden_states pooler_type)
  Pooler.forward pooler_type attention_mask outputs

/-- C8: for every encoder, pooling mode, view and mask, the
sentence-embedding pipeline's pooled vector coincides with the contrastive
pipeline's pooling of the same view — pooling is one deterministic,
stateless function of the encoder output and the mask. -/
theorem sentemb_cl_pooling_round_trip
    (encoder : List (List ℤ) → List (List ℚ) → Bool → EncOut)
    (pooler_type : PoolerType) (input_ids : List (List ℤ))
    (attention_mask : List (List ℚ)) :
    sentemb_pooling encoder pooler_type input_ids attention_mask =
      cl_forward_pooling encoder pooler_type input_ids attention_mask := rfl

/-- A tensor bound to `z3`: the masked-auxiliary branch stores a 2-D pooled
matrix, while the `do_stronger` branch stores the 1-D column
`stronger_pooler_output[:, 0]` (component 0 of each pooled row). -/
inductive Z3Tensor where
  | t1 : Vec → Z3Tensor
  | t2 : Mat → Z3Tensor
deriving DecidableEq

/-- What the post-split part of `cl_forward` leaves behind: the `z3` binding,
the model's bank state, and the record of the keys passed to each
`dequeue_and_enqueue` call (used to state how often `z1` was enqueued). -/
structure TailOutcome where
  z3 : Option Z3Tensor
  bank : Option BankSt
  enqueued : List Mat
deriving DecidableEq

/-- The reconstructed id sequence of the masked-auxiliary branch
(models.py lines 258-270): take view 0 of `mlm_input_ids`, truncate the
flattened attention mask to the first `batch_size` rows, run the generator's
arg-max prediction (`g_pred`), force position 0 of every row to `cls_token`,
and zero the result outside the mask (`e_inputs = g_pred * attention_mask`). -/
def reconstructed_inputs (genArgmax : List (List ℤ) → List (List ℤ) → List (List ℤ))
    (mlm_ids : List (List (List ℤ))) (attention_mask : List (List ℤ))
    (batch_size : Nat) (cls_token : ℤ) : List (List ℤ) :=
  let mlm0 := mlm_ids.map (fun ex => ex.getD 0 [])
  let mask0 := attention_mask.take batch_size
  let g_pred := genArgmax mlm0 mask0
  let g_pred' := g_pred.map (fun row =>
    match row with
    | [] => []
    | _ :: rest => cls_token :: rest)
  List.zipWith (fun g mr => List.zipWith (fun gi mi => gi * mi) g mr) g_pred' mask0

/-- The masked-auxiliary branch of `cl_forward` (models.py lines 255-304):
when `mlm_input_ids` is supplied, encode and pool the reconstructed sequence
into `z3` (the encoder+pooler composite is the opaque `encodePool`), then
enqueue `z1`; reading the bank buffers of a model that never registered them
is fatal. -/
def mlm_branch (m : CLModel)
    (genArgmax : List (List ℤ) → List (List ℤ) → List (List ℤ))
    (encodePool : List (List ℤ) → List (List ℤ) → Mat)
    (mlm_input_ids : Option (List (List (List ℤ)))) (attention_mask : List (List ℤ))
    (batch_size : Nat) (cls_token : ℤ) (z1 : Mat) :
    Option (Option Z3Tensor × Option BankSt × List Mat) :=
  match mlm_input_ids with
  | none => some (none, m.bank, [])
  | some mlm_ids =>
      let z3 := encodePool
        (reconstructed_inputs genArgmax mlm_ids attention_mask batch_size cls_token)
        (attention_mask.take batch_size)
      match m.bank with
      | none => none
      | some b =>
          match dequeue_and_enqueue m.model_args.bank_size b z1 with
          | none => none
          | some b' => some (some (Z3Tensor.t2 z3), some b', [z1])

/-- The stronger-augmentation branch of `cl_forward` (models.py lines
306-308): an independent `if` (not an `elif`) that rebinds `z3` to
`stronger_pooler_output[:, 0]` and enqueues `z1` again. -/
def stronger_branch (args : ModelArgs) (z1 stronger_pooler_output : Mat)
    (st : Option Z3Tensor × Option BankSt × List Mat) :
    Option (Option Z3Tensor × Option BankSt × List Mat) :=
  if args.do_stronger then
    match st.2.1 with
    | none => none
    | some b =>
        match dequeue_and_enqueue args.bank_size b z1 with
        | none => none
        | some b' =>
            some (some (Z3Tensor.t1 (stronger_pooler_output.map (fun row => row.getD 0 0))),
              some b', st.2.2 ++ [z1])
  else some st

/-- The auxiliary-loss bank read (models.py lines 344-346): when
`do_stronger or do_mlm`, `cls.queue` is read to build the bank similarity
scores, which is fatal on a model without the bank buffers. -/
def bank_loss_access (args : ModelArgs)
    (st : Option Z3Tensor × Option BankSt × List Mat) : Option TailOutcome :=
  if args.do_stronger || args.do_mlm then
    match st.2.1 with
    | none => none
    | some b => some ⟨st.1, some b, st.2.2⟩
  else some ⟨st.1, st.2.1, st.2.2⟩

/-- The part of `cl_forward` after the `z1`/`z2` split (models.py lines
255-346, state-relevant effects): masked-auxiliary branch, stronger branch,
then the auxiliary-loss bank read. -/
def cl_forward_tail (m : CLModel)
    (genArgmax : List (List ℤ) → List (List ℤ) → List (List ℤ))
    (encodePool : List (List ℤ) → List (List ℤ) → Mat)
    (mlm_input_ids : Option (List (List (List ℤ)))) (attention_mask : List (List ℤ))
    (batch_size : Nat) (cls_token : ℤ) (z1 stronger_pooler_output : Mat) :
    Option TailOutcome :=
  (mlm_branch m genArgmax encodePool mlm_input_ids attention_mask batch_size cls_token z1).bind
    (fun st => (stronger_branch m.model_args z1 stronger_pooler_output st).bind
      (bank_loss_access m.model_args))

/-- C3 counterexample: with both the masked-auxiliary branch active
(`mlm_input_ids` supplied) and `do_stronger` set, one forward pass enqueues
`z1` twice — the two branches are independent `if`s, not an `elif` — and
`z3` ends up bound by the stronger branch even though the masked-auxiliary
branch is active. -/
theorem mlm_and_stronger_double_enqueue :
    (cl_forward_tail ⟨⟨2, 1, true, true⟩, some ⟨[[0], [0]], 0⟩⟩
        (fun ids _ => ids) (fun _ _ => [[0]])
        (some [[[5]]]) [[1]] 1 101 [[1]] [[3]]).map
      (fun r => (r.enqueued, r.z3)) =
      some ([[[1]], [[1]]], some (Z3Tensor.t1 [3])) := rfl

/-- C3 amended: `z1` is enqueued once per active auxiliary branch — once when
`mlm_input_ids` is supplied and once more when `do_stronger` is set (the two
conditions are independent, so both active means two enqueues; "at most once"
holds only when at most one branch is active).  When `do_stronger` is set,
`z3` is (re)bound to `stronger_pooler_output[:, 0]`; the masked-auxiliary
`z3` (the pooled reconstructed sequence) survives only when `do_stronger` is
not set. -/
theorem cl_forward_tail_enqueue_spec (m : CLModel)
    (genArgmax : List (List ℤ) → List (List ℤ) → List (List ℤ))
    (encodePool : List (List ℤ) → List (List ℤ) → Mat)
    (mlm_input_ids : Option (List (List (List ℤ)))) (attention_mask : List (List ℤ))
    (batch_size : Nat) (cls_token : ℤ) (z1 stronger_pooler_output : Mat)
    (r : TailOutcome)
    (h : cl_forward_tail m genArgmax encodePool mlm_input_ids attention_mask
          batch_size cls_token z1 stronger_pooler_output = some r) :
    r.enqueued = (if mlm_input_ids.isSome then [z1] else []) ++
      (if m.model_args.do_stronger then [z1] else [])
    ∧ (m.model_args.do_stronger = true →
        r.z3 = some (Z3Tensor.t1 (stronger_pooler_output.map (fun row => row.getD 0 0))))
    ∧ (m.model_args.do_stronger = false → ∀ ids, mlm_input_ids = some ids →
        r.z3 = some (Z3Tensor.t2 (encodePool
          (reconstructed_inputs genArgmax ids attention_mask batch_size cls_token)
          (attention_mask.take batch_size))))
    ∧ (m.model_args.do_stronger = false → mlm_input_ids = none → r.z3 = none) := by
  unfold cl_forward_tail mlm_branch stronger_branch bank_loss_access at h
  cases hmlm : mlm_input_ids with
  | none =>
      rw [hmlm] at h
      simp only [Option.some_bind] at h
      cases hds : m.model_args.do_stronger with
      | false =>
          rw [hds] at h
          simp only [Bool.false_eq_true, if_false, Option.some_bind, Bool.false_or] at h
          cases hdm : m.model_args.do_mlm with
          | false =>
              rw [hdm] at h
              simp only [Bool.false_eq_true, if_false] at h
              cases h
              simp
          | true =>
              rw [hdm] at h
              simp only [if_true] at h
              split at h
              · cases h
              · next b heq => cases h; simp
      | true =>
          rw [hds] at h
          simp only [if_true, Bool.true_or] at h
          split at h
          · cases h
          · next b heq =>
              split at h
              · cases h
              · next b' heq' =>
                  simp only [Option.some_bind, if_true] at h
                  cases h
                  simp
  | some ids =>
      rw [hmlm] at h
      simp only [] at h
      split at h
      · cases h
      · next b heq =>
          split at h
          · cases h
          · next b' heq' =>
              simp only [Option.some_bind] at h
              cases hds : m.model_args.do_stronger with
              | false =>
                  rw [hds] at h
                  simp only [Bool.false_eq_true, if_false, Bool.false_or] at h
                  cases hdm : m.model_args.do_mlm with
                  | false =>
                      rw [hdm] at h
                      simp only [Bool.false_eq_true, if_false] at h
                      cases h
                      simp
                  | true =>
                      rw [hdm] at h
                      simp only [if_true] at h
                      cases h
                      simp
              | true =>
                  rw [hds] at h
                  simp only [if_true, Bool.true_or] at h
                  split at h
                  · cases h
                  · next b'' heq'' =>
                      simp only [Option.some_bind] at h
                      cases h
                      simp

/-- C3 amended witness: masked-auxiliary branch alone (no `do_stronger`):
one enqueue of `z1`, `z3` bound to the pooled reconstructed sequence. -/
theorem cl_forward_tail_enqueue_spec_witness :
    (⟨some (Z3Tensor.t2 [[7]]), some ⟨[[2], [0]], 1⟩, [[[2]]]⟩ : TailOutcome).enqueued =
        [[[2]]]
    ∧ (⟨some (Z3Tensor.t2 [[7]]), some ⟨[[2], [0]], 1⟩, [[[2]]]⟩ : TailOutcome).z3 =
        some (Z3Tensor.t2 [[7]]) := by
  have h := cl_forward_tail_enqueue_spec ⟨⟨2, 1, true, false⟩, some ⟨[[0], [0]], 0⟩⟩
    (fun ids _ => ids) (fun _ _ => [[7]]) (some [[[5]]]) [[1]] 1 101 [[2]] []
    ⟨some (Z3Tensor.t2 [[7]]), some ⟨[[2], [0]], 1⟩, [[[2]]]⟩ rfl
  refine ⟨?_, ?_⟩
  · simpa using h.1
  · simpa using h.2.2.1 rfl [[[5]]] rfl

/-- C9: only `BertForCL.__init__` registers the memory-bank buffers; on a
RoBERTa model every forward pass with an active auxiliary branch
(`do_stronger`, `do_mlm`, or supplied `mlm_input_ids`) dies on the missing
`queue`/`queue_ptr` state, while the plain 2-view path (no auxiliary branch)
runs to completion without touching a bank. -/
theorem roberta_missing_bank (args : ModelArgs) (q0 : Mat) :
    (BertForCL_init args q0).bank = some ⟨q0, 0⟩
    ∧ (RobertaForCL_init args).bank = none
    ∧ (∀ ga ep mlmIds mask bs ct z1 sp,
        (args.do_stronger = true ∨ args.do_mlm = true ∨ mlmIds ≠ none) →
        cl_forward_tail (RobertaForCL_init args) ga ep mlmIds mask bs ct z1 sp = none)
    ∧ (∀ ga ep mask bs ct z1 sp, args.do_stronger = false → args.do_mlm = false →
        cl_forward_tail (RobertaForCL_init args) ga ep none mask bs ct z1 sp =
          some ⟨none, none, []⟩) := by
  refine ⟨rfl, rfl, ?_, ?_⟩
  · intro ga ep mlmIds mask bs ct z1 sp haux
    unfold cl_forward_tail mlm_branch stronger_branch bank_loss_access
    cases mlmIds with
    | some ids => rfl
    | none =>
        simp only [RobertaForCL_init, Option.some_bind]
        by_cases hds : args.do_stronger = true
        · simp [hds]
        · have hds' : args.do_stronger = false := Bool.eq_false_iff.mpr hds
          by_cases hdm : args.do_mlm = true
          · simp [hds', hdm]
          · rcases haux with h | h | h
            · exact absurd h hds
            · exact absurd h hdm
            · exact absurd rfl h
  · intro ga ep mask bs ct z1 sp hds hdm
    unfold cl_forward_tail mlm_branch stronger_branch bank_loss_access
    simp only [RobertaForCL_init, hds, hdm, Option.some_bind]
    rfl

/-- C9 witness: the concrete RoBERTa model with `do_mlm` set fails; with no
auxiliary flag it succeeds; the BERT model holds the bank. -/
theorem roberta_missing_bank_witness :
    (BertForCL_init ⟨4, 2, true, false⟩ [[1], [2], [3], [4]]).bank =
      some ⟨[[1], [2], [3], [4]], 0⟩
    ∧ (RobertaForCL_init ⟨4, 2, true, false⟩).bank = none
    ∧ cl_forward_tail (RobertaForCL_init ⟨4, 2, true, false⟩)
        (fun ids _ => ids) (fun _ _ => [[0]]) none [] 1 101 [[1]] [] = none
    ∧ cl_forward_tail (RobertaForCL_init ⟨4, 2, false, false⟩)
        (fun ids _ => ids) (fun _ _ => [[0]]) none [] 1 101 [[1]] [] =
      some ⟨none, none, []⟩ := by
  have hA := roberta_missing_bank ⟨4, 2, true, false⟩ [[1], [2], [3], [4]]
  have hB := roberta_missing_bank ⟨4, 2, false, false⟩ [[1], [2], [3], [4]]
  exact ⟨hA.1, hA.2.1,
    hA.2.2.1 (fun ids _ => ids) (fun _ _ => [[0]]) none [] 1 101 [[1]] []
      (Or.inr (Or.inl rfl)),
    hB.2.2.2 (fun ids _ => ids) (fun _ _ => [[0]]) [] 1 101 [[1]] [] rfl rfl⟩

/-- Models `input_ids[:, 0]` / `attention_mask[:, 0]` (models.py lines 178-186): the
`do_stronger` truncation keeps view 0 alone, eliminating the view dimension. -/
def strongerTruncate (t : List (List (List ℤ))) : List (List ℤ) :=
  t.map (fun ex => ex.getD 0 [])

/-- Models `input_ids.size(1)` (models.py line 188) read off the (now 2-D) truncated
batch: its second dimension is the sequence length, not a view count. -/
def size1 (t : List (List ℤ)) : Nat := (t.headD []).length

/-- Models `pooler_output.view((batch_size, num_sent, hidden))` (models.py line
220): a torch `view` is fatal unless the element counts match, i.e. the
pooled row count equals `batch_size * num_sent`. -/
def reshape3 (pooled : Mat) (batch_size num_sent : Nat) : Option (List Mat) :=
  if pooled.length = batch_size * num_sent then
    some ((List.range batch_size).map (fun i => (pooled.drop (i * num_sent)).take num_sent))
  else none

/-- Models `z1, z2 = pooler_output[:, 0], pooler_output[:, 1]` (models.py line 249):
fatal unless every example carries at least two views. -/
def twoViewSplit (p : List Mat) : Option (Mat × Mat) :=
  if p.all (fun g => 2 ≤ g.length) then
    some (p.map (fun g => g.getD 0 []), p.map (fun g => g.getD 1 []))
  else none

/-- The `do_stronger` head of `cl_forward` (models.py lines 141-249), from
the truncation to the `z1`/`z2` split, with the encoder+pooler composite
opaque: truncate to view 0, read `num_sent` from the truncated tensor
(line 188), flatten (the identity on a 2-D tensor), encode and pool, reshape
to `(batch, num_sent, hidden)`, split views 0 and 1. -/
def cl_forward_do_stronger_head
    (encodePool : List (List ℤ) → List (List ℤ) → Mat)
    (input_ids attention_mask : List (List (List ℤ))) : Option (Mat × Mat) :=
  let batch_size := input_ids.length
  let ids1 := strongerTruncate input_ids
  let mask1 := strongerTruncate attention_mask
  let num_sent := size1 ids1
  let pooler_output := encodePool ids1 mask1
  (reshape3 pooler_output batch_size num_sent).bind twoViewSplit

/-- Follows the spec's words: the truncation preserves views 0 and 1 (the
commented-out `input_ids[:, 0:2]` of models.py lines 173-176), `num_sent`
is the retained view count 2, and the 2-view batch is flattened before
encoding, so the downstream two-view split succeeds. -/
def cl_forward_spec_two_view_head
    (encodePool : List (List ℤ) → List (List ℤ) → Mat)
    (input_ids attention_mask : List (List (List ℤ))) : Option (Mat × Mat) :=
  let batch_size := input_ids.length
  let ids1 := input_ids.map (fun ex => ex.take 2)
  let mask1 := attention_mask.map (fun ex => ex.take 2)
  let num_sent := 2
  let pooler_output := encodePool ids1.flatten mask1.flatten
  (reshape3 pooler_output batch_size num_sent).bind twoViewSplit

/-- C1: on a 3-view input (batch 1, 3 views, seq_len 2) the `do_stronger`
truncation keeps view 0 alone, so `num_sent` becomes the sequence length 2
and the reshape of the 1-row pooled output into `(1, 2, hidden)` is fatal:
the pipeline never reaches the two-view split, against the claim that it
operates on a 2-view batch of views 0 and 1.  The spec-faithful two-view
truncation on the same input succeeds and splits into `z1`/`z2`. -/
theorem do_stronger_truncation_bug :
    strongerTruncate [[[1, 2], [3, 4], [5, 6]]] = [[1, 2]]
    ∧ size1 (strongerTruncate [[[1, 2], [3, 4], [5, 6]]]) = 2
    ∧ cl_forward_do_stronger_head (fun ids _ => ids.map (fun _ => [0]))
        [[[1, 2], [3, 4], [5, 6]]] [[[1, 1], [1, 1], [1, 1]]] = none
    ∧ cl_forward_spec_two_view_head (fun ids _ => ids.map (fun _ => [0]))
        [[[1, 2], [3, 4], [5, 6]]] [[[1, 1], [1, 1], [1, 1]]] =
      some ([[0]], [[0]]) :=
  ⟨rfl, rfl, rfl, rfl⟩

/-- A float vector over the reals, for the loss arithmetic (`exp`, `log`,
`sqrt` have no rational embedding). -/
abbrev RVec : Type := List ℝ

/-- A 2-D real tensor as a list of rows. -/
abbrev RMat : Type := List RVec

/-- Dot product of two rows. -/
noncomputable def rdot (x y : RVec) : ℝ := (List.zipWith (fun a b => a * b) x y).sum

/-- Euclidean norm of a row. -/
noncomputable def l2norm (x : RVec) : ℝ := Real.sqrt (rdot x x)

/-- Models `nn.CosineSimilarity(dim=-1)` on a pair of rows (the denominator's
`eps` clamp of the float implementation is omitted in exact arithmetic). -/
noncomputable def cosineSim (x y : RVec) : ℝ := rdot x y / (l2norm x * l2norm y)

/-- Models `Similarity.forward` (models.py lines 45-46): cosine over temperature. -/
noncomputable def Similarity.forward (temp : ℝ) (x y : RVec) : ℝ := cosineSim x y / temp

/-- The broadcast similarity matrix `sim(X.unsqueeze(1), Y.unsqueeze(0))`. -/
noncomputable def simMatrix (temp : ℝ) (X Y : RMat) : RMat :=
  X.map (fun x => Y.map (fun y => Similarity.forward temp x y))

/-- Models `z2_bank_cos` (models.py line 345): `z2` against the detached bank. -/
noncomputable def z2_bank_cos (temp : ℝ) (z2 queue : RMat) : RMat :=
  simMatrix temp z2 queue

/-- Models `z3_bank_cos` (models.py line 346): also computed from `z2` against the
detached bank — identical to `z2_bank_cos`. -/
noncomputable def z3_bank_cos (temp : ℝ) (z2 queue : RMat) : RMat :=
  simMatrix temp z2 queue

/-- Models `nn.Softmax()` on one row (dim 1 of a 2-D input). -/
noncomputable def softmaxRow (v : RVec) : RVec :=
  v.map (fun a => Real.exp a / (v.map Real.exp).sum)

/-- Row-wise softmax of a 2-D tensor. -/
noncomputable def softmaxRows (M : RMat) : RMat := M.map softmaxRow

/-- Elementwise `torch.log`. -/
noncomputable def logRows (M : RMat) : RMat := M.map (fun r => r.map Real.log)

/-- Models `.t()` of a 2-D tensor. -/
noncomputable def transposeM (M : RMat) : RMat :=
  (List.range (M.headD []).length).map (fun j => M.map (fun r => r.getD j 0))

/-- Models `torch.mm`. -/
noncomputable def torch_mm (A B : RMat) : RMat :=
  A.map (fun ar => (transposeM B).map (fun bc => rdot ar bc))

/-- Models `ld_loss_tenser` (models.py lines 348-354): softmax the two bank-score
matrices row-wise, log the second, transpose it, matrix-multiply. -/
noncomputable def ld_loss_tenser (temp : ℝ) (z2 queue : RMat) : RMat :=
  torch_mm (softmaxRows (z2_bank_cos temp z2 queue))
    (transposeM (logRows (softmaxRows (z3_bank_cos temp z2 queue))))

/-- The main diagonal, `M[range(n), range(n)]`. -/
noncomputable def diagonal (M : RMat) : RVec :=
  (List.range M.length).map (fun i => (M.getD i []).getD i 0)

/-- Models `ld_loss` (models.py lines 355-356): absolute value of the averaged
diagonal of `ld_loss_tenser`. -/
noncomputable def ld_loss (temp : ℝ) (z2 queue : RMat) : ℝ :=
  |(diagonal (ld_loss_tenser temp z2 queue)).sum /
    ((ld_loss_tenser temp z2 queue).length : ℝ)|

/-- Log-sum-exp of one logit row. -/
noncomputable def logsumexp (v : RVec) : ℝ := Real.log ((v.map Real.exp).sum)

/-- Models `nn.CrossEntropyLoss()` with the default mean reduction. -/
noncomputable def crossEntropy (logits : RMat) (labels : List Nat) : ℝ :=
  (List.zipWith (fun row l => logsumexp row - row.getD l 0) logits labels).sum /
    (logits.length : ℝ)

/-- The loss composition of `cl_forward` (models.py lines 359, 372,
379-380): cross-entropy of `cos_sim` against `arange` labels, plus
`mlm_weight * ld_loss` when the auxiliary branch is active. -/
noncomputable def cl_loss (args : ModelArgs) (temp mlm_weight : ℝ)
    (cos_sim z2 queue : RMat) : ℝ :=
  let loss := crossEntropy cos_sim (List.range cos_sim.length)
  if args.do_stronger || args.do_mlm then
    loss + mlm_weight * ld_loss temp z2 queue
  else loss

/-- C4: with the auxiliary branch active, the two bank-score matrices are
computed identically (both the temperature-scaled cosine of `z2` against the
bank), `ld_loss` is the absolute per-example average of the diagonal of
`softmax(z2_bank_cos) ⬝ log(softmax(z3_bank_cos))ᵀ`, and the returned loss
is the contrastive cross-entropy plus `mlm_weight * ld_loss`. -/
theorem aux_loss_spec (args : ModelArgs) (temp mlm_weight : ℝ)
    (cos_sim z2 queue : RMat) (h : args.do_stronger = true ∨ args.do_mlm = true) :
    z2_bank_cos temp z2 queue = z3_bank_cos temp z2 queue
    ∧ z2_bank_cos temp z2 queue = simMatrix temp z2 queue
    ∧ ld_loss temp z2 queue =
        |(diagonal (torch_mm (softmaxRows (z2_bank_cos temp z2 queue))
            (transposeM (logRows (softmaxRows (z3_bank_cos temp z2 queue)))))).sum /
          (z2.length : ℝ)|
    ∧ cl_loss args temp mlm_weight cos_sim z2 queue =
        crossEntropy cos_sim (List.range cos_sim.length) +
          mlm_weight * ld_loss temp z2 queue := by
  refine ⟨rfl, rfl, ?_, ?_⟩
  · have hlen : (ld_loss_tenser temp z2 queue).length = z2.length := by
      simp [ld_loss_tenser, torch_mm, softmaxRows, z2_bank_cos, simMatrix]
    show |(diagonal (ld_loss_tenser temp z2 queue)).sum /
        ((ld_loss_tenser temp z2 queue).length : ℝ)| = _
    rw [hlen]
    rfl
  · rcases h with h | h <;> simp [cl_loss, h]

/-- C4 witness: concrete one-row tensors with `do_mlm` set. -/
theorem aux_loss_spec_witness :
    z2_bank_cos 1 [[1]] [[1]] = z3_bank_cos 1 [[1]] [[1]]
    ∧ z2_bank_cos 1 [[1]] [[1]] = simMatrix 1 [[1]] [[1]]
    ∧ ld_loss 1 [[1]] [[1]] =
        |(diagonal (torch_mm (softmaxRows (z2_bank_cos 1 [[1]] [[1]]))
            (transposeM (logRows (softmaxRows (z3_bank_cos 1 [[1]] [[1]])))))).sum /
          (([[1]] : RMat).length : ℝ)|
    ∧ cl_loss ⟨1, 1, true, false⟩ 1 1 [[1]] [[1]] [[1]] =
        crossEntropy [[1]] (List.range ([[1]] : RMat).length) +
          1 * ld_loss 1 [[1]] [[1]] :=
  aux_loss_spec ⟨1, 1, true, false⟩ 1 1 [[1]] [[1]] [[1]] (Or.inr rfl)
